import Mathlib

/-!
# Episode hydration of matched local files (`internal/scanner/hydrator.go`)

A shallow embedding of `FileHydrator.HydrateMetadata`, `hydrateGroupMetadata`
and `normalizeEpisodeNumber`, followed by the properties of the per-file
classification rules.

Modelling conventions.

* The `*LocalFile` objects live in a heap, a `List LocalFile`; a pointer is a
  position in that list. `fh.localFiles` holds one pointer to every cell.
* Go `int` values are `Int`: the code performs no arithmetic on them.
* Packages that the hydrator calls but that are not part of the embedded
  sources (`util.StringToInt`, `comparison.ValueContainsSpecial`,
  `comparison.ValueContainsNC`, `FetchMediaTree`, `NewMediaTreeAnalysis`) are
  fields of `FileHydrator`; the remote fetch is a function of the media, that
  is, its answer is fixed for the duration of a scan.
* `lop.GroupBy` appends concurrently, so the order of the pointers inside a
  group is the arrival order of its goroutines: `HydrateMetadata` takes that
  arrival order as the argument `order`, and the theorems hold for every one.
  Groups touch disjoint cells, so they are run one after the other.
-/

namespace Scanner

/-- The `LocalFileMetadata` fields written by the hydrator. -/
structure Metadata where
  Episode : Int
  AniDBEpisode : String
  IsSpecial : Bool
  IsNC : Bool
deriving DecidableEq, Repr

/-- The `LocalFileParsedData` field read by the hydrator. -/
structure ParsedData where
  Episode : String
deriving DecidableEq, Repr

/-- The `LocalFile` fields used by the hydrator. -/
structure LocalFile where
  Name : String
  ParsedData : ParsedData
  MediaId : Int
  Metadata : Metadata
deriving DecidableEq, Repr

/-- The `anilist.MediaFormat` values. -/
inductive MediaFormat where
  | TV
  | TVShort
  | Movie
  | Special
  | OVA
  | ONA
  | Music
  | Manga
  | Novel
  | OneShot
deriving DecidableEq, Repr

/-- The `anilist.BaseMedia` data read by the hydrator: `ID`, `*media.Format`,
`GetCurrentEpisodeCount()` and `GetTotalEpisodeCount()`. -/
structure BaseMedia where
  ID : Int
  Format : MediaFormat
  CurrentEpisodeCount : Int
  TotalEpisodeCount : Int
deriving DecidableEq, Repr

/-- A `MediaTreeAnalysis`, seen through `getRelativeEpisodeNumber`. -/
structure MediaTreeAnalysis where
  getRelativeEpisodeNumber : Int → Int × Bool

/-- The `FileHydrator` together with the collaborators it calls. `Tree` is the
type of a populated relation tree. `FetchMediaTree` is `none` when the Go call
returns a non-nil error. -/
structure FileHydrator (Tree : Type) where
  media : List BaseMedia
  StringToInt : String → Option Int
  ValueContainsSpecial : String → Bool
  ValueContainsNC : String → Bool
  FetchMediaTree : BaseMedia → Option Tree
  NewMediaTreeAnalysis : Tree → MediaTreeAnalysis

/-- Go `strconv.Itoa`. -/
def Itoa : Int → String
  | Int.ofNat n => Nat.repr n
  | Int.negSucc n => "-" ++ Nat.repr (n + 1)

/-- The variables `mediaTreeAnalysis` and `treeFetched` that
`hydrateGroupMetadata` shares between the files of one group. -/
structure LoopState where
  treeFetched : Bool
  mediaTreeAnalysis : Option MediaTreeAnalysis

/-- The state in which the loop over a group starts. -/
def LoopState.init : LoopState := ⟨false, none⟩

/-- Lines 76-81: the episode number of a file, `-1` when none is parsed. -/
def getEpisode {Tree : Type} (fh : FileHydrator Tree) (lf : LocalFile) : Int :=
  if lf.ParsedData.Episode.length > 0 then
    match fh.StringToInt lf.ParsedData.Episode with
    | some ep => ep
    | none => -1
  else -1

/-- The assignment pair `lf.Metadata.Episode = ep; lf.Metadata.AniDBEpisode = s`. -/
def setEpisode (lf : LocalFile) (ep : Int) (s : String) : LocalFile :=
  { lf with Metadata := { lf.Metadata with Episode := ep, AniDBEpisode := s } }

/-- The method `normalizeEpisodeNumber`: the updated file and the returned error. -/
def normalizeEpisodeNumber (mta : Option MediaTreeAnalysis) (lf : LocalFile) (ep : Int) :
    LocalFile × Option String :=
  match mta with
  | none => (setEpisode lf ep (Itoa ep), some "[hydrator] could not find media tree analysis")
  | some a =>
    match a.getRelativeEpisodeNumber ep with
    | (_, false) =>
      (setEpisode lf ep (Itoa ep), some "[hydrator] could not normalize episode number")
    | (relativeEp, true) => (setEpisode lf relativeEp (Itoa relativeEp), none)

/-- The body of the `lo.ForEach` of `hydrateGroupMetadata` (lines 73-156) for
one file: the updated file and the updated shared variables. -/
def hydrateFile {Tree : Type} (fh : FileHydrator Tree) (media : BaseMedia)
    (st : LoopState) (lf : LocalFile) : LocalFile × LoopState :=
  let episode := getEpisode fh lf
  if fh.ValueContainsSpecial lf.Name then
    let lf1 : LocalFile := { lf with Metadata := { lf.Metadata with IsSpecial := true } }
    if episode > -1 then (setEpisode lf1 episode ("S" ++ Itoa episode), st) else (lf1, st)
  else if fh.ValueContainsNC lf.Name then
    let lf1 := setEpisode lf 1 "NC"
    ({ lf1 with Metadata := { lf1.Metadata with IsNC := true } }, st)
  else if media.Format = MediaFormat.Movie then
    (setEpisode lf 1 "1", st)
  else if episode ≤ media.CurrentEpisodeCount then
    if episode = 0 then (setEpisode lf 0 "S1", st)
    else (setEpisode lf episode (Itoa episode), st)
  else if episode > media.CurrentEpisodeCount ∧ media.TotalEpisodeCount = 1 then
    (setEpisode lf 1 "1", st)
  else if episode > media.CurrentEpisodeCount then
    if !st.treeFetched then
      match fh.FetchMediaTree media with
      | some tree =>
        let mta := fh.NewMediaTreeAnalysis tree
        ((normalizeEpisodeNumber (some mta) lf episode).1, ⟨true, some mta⟩)
      | none => (lf, st)
    else ((normalizeEpisodeNumber st.mediaTreeAnalysis lf episode).1, st)
  else (lf, st)

/-- The `lo.ForEach` over the pointers of a group, in order, on the heap. -/
def forEachFile {Tree : Type} (fh : FileHydrator Tree) (media : BaseMedia) :
    LoopState → List Nat → List LocalFile → List LocalFile
  | _, [], heap => heap
  | st, p :: ps, heap =>
    match heap[p]? with
    | none => forEachFile fh media st ps heap
    | some lf =>
      forEachFile fh media (hydrateFile fh media st lf).2 ps
        (heap.set p (hydrateFile fh media st lf).1)

/-- The method `hydrateGroupMetadata` for the media id `mId` and the group of
pointers `lfs`. -/
def hydrateGroupMetadata {Tree : Type} (fh : FileHydrator Tree) (mId : Int)
    (lfs : List Nat) (heap : List LocalFile) : List LocalFile :=
  match fh.media.find? (fun media => media.ID == mId) with
  | none => heap
  | some media => forEachFile fh media LoopState.init lfs heap

/-- The statement `result[key] = append(result[key], item)` on a map kept as an
association list. -/
def groupInsert : List (Int × List Nat) → Int → Nat → List (Int × List Nat)
  | [], k, p => [(k, [p])]
  | (k', ps) :: rest, k, p =>
    if k' = k then (k', ps ++ [p]) :: rest else (k', ps) :: groupInsert rest k p

/-- The call `lop.GroupBy(fh.localFiles, ...)` with key `MediaId`, the
goroutines arriving in the order `order`. -/
def GroupBy (order : List Nat) (heap : List LocalFile) : List (Int × List Nat) :=
  order.foldl
    (fun groups p =>
      match heap[p]? with
      | none => groups
      | some lf => groupInsert groups lf.MediaId p)
    []

/-- The loop of `HydrateMetadata` over the groups. -/
def hydrateGroups {Tree : Type} (fh : FileHydrator Tree) :
    List (Int × List Nat) → List LocalFile → List LocalFile
  | [], heap => heap
  | (mId, files) :: rest, heap =>
    hydrateGroups fh rest
      (if files.length > 0 then hydrateGroupMetadata fh mId files heap else heap)

/-- The method `HydrateMetadata`: group by media id, delete the group of the
unmatched files, hydrate every remaining group. -/
def HydrateMetadata {Tree : Type} (fh : FileHydrator Tree) (order : List Nat)
    (heap : List LocalFile) : List LocalFile :=
  hydrateGroups fh ((GroupBy order heap).filter (fun g => g.1 != 0)) heap

/-- What hydration does to one file, whatever the other files are. -/
def hydrateOne {Tree : Type} (fh : FileHydrator Tree) (lf : LocalFile) : LocalFile :=
  if lf.MediaId = 0 then lf
  else
    match fh.media.find? (fun media => media.ID == lf.MediaId) with
    | none => lf
    | some media => (hydrateFile fh media LoopState.init lf).1

/-! ## Predicates used in the statements -/

/-- The values the shared variables of a group can take: the initial ones, or
the analysis of the tree that the fetch for this media returns. -/
def Consistent {Tree : Type} (fh : FileHydrator Tree) (media : BaseMedia)
    (st : LoopState) : Prop :=
  st = LoopState.init ∨
    ∃ tree, fh.FetchMediaTree media = some tree ∧
      st = ⟨true, some (fh.NewMediaTreeAnalysis tree)⟩

/-- Every pointer of every group points to a file whose media id is the key of
the group. -/
def KeysAgree (gs : List (Int × List Nat)) (heap : List LocalFile) : Prop :=
  ∀ g ∈ gs, ∀ q ∈ g.2, ∃ lf, heap[q]? = some lf ∧ lf.MediaId = g.1

/-- The conditions under which a file reaches the absolute-numbering rule of
lines 129-154: no earlier rule applies. -/
def AbsoluteRule {Tree : Type} (fh : FileHydrator Tree) (media : BaseMedia)
    (lf : LocalFile) : Prop :=
  fh.ValueContainsSpecial lf.Name = false ∧ fh.ValueContainsNC lf.Name = false ∧
    media.Format ≠ MediaFormat.Movie ∧ getEpisode fh lf > media.CurrentEpisodeCount ∧
    media.TotalEpisodeCount ≠ 1

instance {Tree : Type} (fh : FileHydrator Tree) (media : BaseMedia) (lf : LocalFile) :
    Decidable (AbsoluteRule fh media lf) := by
  unfold AbsoluteRule
  exact inferInstance

/-! ## Sample inputs -/

/-- A hydrator over the given media whose fetch answers `fetch`, with a small
parsing table and the markers `SP` and `NCED`. -/
def sampleHydrator (media : List BaseMedia) (fetch : Option Unit)
    (rel : Int → Int × Bool) : FileHydrator Unit where
  media := media
  StringToInt := fun s =>
    if s = "5" then some 5 else if s = "0" then some 0 else if s = "2" then some 2
    else if s = "30" then some 30 else none
  ValueContainsSpecial := fun s => s = "SP"
  ValueContainsNC := fun s => s = "NCED"
  FetchMediaTree := fun _ => fetch
  NewMediaTreeAnalysis := fun _ => ⟨rel⟩

/-- A TV series with 12 episodes out and 25 planned. -/
def sampleTV : BaseMedia := ⟨7, MediaFormat.TV, 12, 25⟩

/-- A freshly scanned file: zero-valued metadata. -/
def sampleFile (name episode : String) (mId : Int) : LocalFile :=
  ⟨name, ⟨episode⟩, mId, ⟨0, "", false, false⟩⟩

end Scanner

/-!
# Best-match selection of the filler search (`internal/api/metadata/filler.go`)

The loop of `AnimeFillerList.Search` that picks `bestResult` among
`compResults` (lines 121-135). The comparison results are the input: each
carries the scraped title, the title that was compared and the distance that
`lev.Distance` returned for it.
-/

namespace AnimeFillerList

/-- An element of `compResults` (lines 75-79). -/
structure CompResult where
  OriginalValue : String
  Value : String
  Distance : Int
deriving DecidableEq, Repr

/-- Go `len` of a string: its number of bytes. -/
def len (s : String) : Nat := s.utf8ByteSize

/-- The body of the loop of lines 128-135: the value of `bestResult` after the
iteration for `result`. The `continue` of line 131 keeps `bestResult`. -/
def selectStep (bestResult result : CompResult) : CompResult :=
  if bestResult.OriginalValue = "" ∨ result.Distance ≤ bestResult.Distance then
    if bestResult.OriginalValue ≠ "" ∧ result.Distance = bestResult.Distance ∧
        len result.OriginalValue > len bestResult.OriginalValue then
      bestResult
    else result
  else bestResult

/-- Lines 121-135: `bestResult` starts as the zero value and the loop runs over
`compResults` in order. -/
def bestMatch (compResults : List CompResult) : CompResult :=
  compResults.foldl selectStep ⟨"", "", 0⟩

/-- The order the loop selects by: smaller distance first, and at equal
distance the scraped title with fewer bytes. -/
def Preferred (a b : CompResult) : Prop :=
  a.Distance < b.Distance ∨
    (a.Distance = b.Distance ∧ len a.OriginalValue ≤ len b.OriginalValue)

end AnimeFillerList

namespace Scanner

/-! ## The shared variables of a group -/

theorem consistent_init {Tree : Type} (fh : FileHydrator Tree) (media : BaseMedia) :
    Consistent fh media LoopState.init := Or.inl rfl

theorem hydrateFile_snd_consistent {Tree : Type} (fh : FileHydrator Tree)
    (media : BaseMedia) (st : LoopState) (lf : LocalFile)
    (h : Consistent fh media st) : Consistent fh media (hydrateFile fh media st lf).2 := by
  unfold hydrateFile
  simp only
  split_ifs
  any_goals exact h
  cases hf : fh.FetchMediaTree media with
  | none => exact h
  | some tree => exact Or.inr ⟨tree, hf, rfl⟩

theorem hydrateFile_fst_consistent {Tree : Type} (fh : FileHydrator Tree)
    (media : BaseMedia) (st : LoopState) (lf : LocalFile)
    (h : Consistent fh media st) :
    (hydrateFile fh media st lf).1 = (hydrateFile fh media LoopState.init lf).1 := by
  rcases h with rfl | ⟨tree, ht, rfl⟩
  · rfl
  · unfold hydrateFile
    simp only [LoopState.init, ht]
    split_ifs <;> simp_all

/-! ## One group on the heap -/

theorem forEachFile_getElem? {Tree : Type} (fh : FileHydrator Tree) (media : BaseMedia) :
    ∀ (ps : List Nat) (st : LoopState) (heap : List LocalFile),
      ps.Nodup → Consistent fh media st → ∀ i : Nat,
        (forEachFile fh media st ps heap)[i]? =
          if i ∈ ps then heap[i]?.map (fun lf => (hydrateFile fh media LoopState.init lf).1)
          else heap[i]? := by
  intro ps
  induction ps with
  | nil => intro st heap _ _ i; simp [forEachFile]
  | cons p ps ih =>
    intro st heap hnd hst i
    have hp : p ∉ ps := (List.nodup_cons.mp hnd).1
    have hps : ps.Nodup := (List.nodup_cons.mp hnd).2
    unfold forEachFile
    cases hlf : heap[p]? with
    | none =>
      simp only
      rw [ih st heap hps hst i]
      by_cases hip : i = p
      · subst hip
        simp [hp, hlf]
      · simp [hip]
    | some lf =>
      simp only
      rw [ih _ _ hps (hydrateFile_snd_consistent fh media st lf hst) i]
      have hlen : p < heap.length := by
        by_contra hge
        rw [List.getElem?_eq_none (not_lt.mp hge)] at hlf
        exact Option.noConfusion hlf
      by_cases hip : i = p
      · subst hip
        simp [hp, hlf, List.getElem?_set, hlen, hydrateFile_fst_consistent fh media st lf hst]
      · have hpi : ¬ p = i := fun h => hip h.symm
        simp [hip, List.getElem?_set, hpi]

theorem hydrateGroupMetadata_getElem? {Tree : Type} (fh : FileHydrator Tree) (mId : Int)
    (files : List Nat) (heap : List LocalFile) (hnd : files.Nodup) (hm : mId ≠ 0)
    (hkey : ∀ q ∈ files, ∃ lf, heap[q]? = some lf ∧ lf.MediaId = mId) (i : Nat) :
    (hydrateGroupMetadata fh mId files heap)[i]? =
      if i ∈ files then heap[i]?.map (hydrateOne fh) else heap[i]? := by
  unfold hydrateGroupMetadata
  cases hfind : fh.media.find? (fun media => media.ID == mId) with
  | none =>
    simp only
    by_cases hi : i ∈ files
    · obtain ⟨lf, hlf, hk⟩ := hkey i hi
      simp [hi, hlf, hydrateOne, hk, hfind, hm]
    · simp [hi]
  | some media =>
    simp only
    rw [forEachFile_getElem? fh media files _ heap hnd (consistent_init fh media) i]
    by_cases hi : i ∈ files
    · obtain ⟨lf, hlf, hk⟩ := hkey i hi
      simp [hi, hlf, hydrateOne, hk, hfind, hm]
    · simp [hi]

/-! ## All groups -/

theorem hydrateGroups_getElem? {Tree : Type} (fh : FileHydrator Tree) :
    ∀ (gs : List (Int × List Nat)) (heap : List LocalFile),
      (gs.flatMap Prod.snd).Nodup → (∀ g ∈ gs, g.1 ≠ 0) → KeysAgree gs heap →
      ∀ i : Nat, (hydrateGroups fh gs heap)[i]? =
        if i ∈ gs.flatMap Prod.snd then heap[i]?.map (hydrateOne fh) else heap[i]? := by
  intro gs
  induction gs with
  | nil => intro heap _ _ _ i; simp [hydrateGroups]
  | cons g rest ih =>
    obtain ⟨mId, files⟩ := g
    intro heap hnd hne hkey i
    rw [List.flatMap_cons, List.nodup_append] at hnd
    obtain ⟨hfiles, hrest, hdisj⟩ := hnd
    have hstep : ∀ j : Nat,
        (if files.length > 0 then hydrateGroupMetadata fh mId files heap else heap)[j]? =
          if j ∈ files then heap[j]?.map (hydrateOne fh) else heap[j]? := by
      intro j
      by_cases hlen : files.length > 0
      · rw [if_pos hlen]
        exact hydrateGroupMetadata_getElem? fh mId files heap hfiles
          (hne (mId, files) (List.mem_cons_self _ _))
          (hkey (mId, files) (List.mem_cons_self _ _)) j
      · have hnil : files = [] := List.length_eq_zero.mp (Nat.eq_zero_of_not_pos hlen)
        subst hnil
        simp
    have hkey2 : KeysAgree rest
        (if files.length > 0 then hydrateGroupMetadata fh mId files heap else heap) := by
      intro g hg q hq
      have hqr : q ∈ rest.flatMap Prod.snd := List.mem_flatMap.mpr ⟨g, hg, hq⟩
      have hqf : q ∉ files := fun h => hdisj h hqr
      rw [hstep q, if_neg hqf]
      exact hkey g (List.mem_cons_of_mem _ hg) q hq
    unfold hydrateGroups
    rw [ih _ hrest (fun g hg => hne g (List.mem_cons_of_mem _ hg)) hkey2 i, hstep i]
    by_cases hif : i ∈ files
    · have hir : i ∉ rest.flatMap Prod.snd := fun h => hdisj hif h
      simp [hif, hir]
    · by_cases hir : i ∈ rest.flatMap Prod.snd
      · simp [hif, hir]
      · simp [hif, hir]

/-! ## Grouping -/

theorem groupInsert_flatMap_perm (k : Int) (p : Nat) :
    ∀ gs : List (Int × List Nat),
      ((groupInsert gs k p).flatMap Prod.snd).Perm (gs.flatMap Prod.snd ++ [p]) := by
  intro gs
  induction gs with
  | nil => simp [groupInsert]
  | cons g rest ih =>
    obtain ⟨k', ps⟩ := g
    unfold groupInsert
    by_cases hk : k' = k
    · rw [if_pos hk]
      simp only [List.flatMap_cons, List.append_assoc]
      exact List.Perm.append_left ps List.perm_append_comm
    · rw [if_neg hk]
      simp only [List.flatMap_cons, List.append_assoc]
      exact List.Perm.append_left ps ih

theorem groupInsert_keysAgree (heap : List LocalFile) (p : Nat) (lf : LocalFile)
    (hlf : heap[p]? = some lf) :
    ∀ gs : List (Int × List Nat), KeysAgree gs heap →
      KeysAgree (groupInsert gs lf.MediaId p) heap := by
  intro gs
  induction gs with
  | nil =>
    intro _ g hg q hq
    simp only [groupInsert, List.mem_singleton] at hg
    subst hg
    simp only [List.mem_singleton] at hq
    subst hq
    exact ⟨lf, hlf, rfl⟩
  | cons g0 rest ih =>
    obtain ⟨k', ps⟩ := g0
    intro hkey g hg q hq
    unfold groupInsert at hg
    by_cases hk : k' = lf.MediaId
    · rw [if_pos hk] at hg
      rcases List.mem_cons.mp hg with rfl | hg
      · rcases List.mem_append.mp hq with hq | hq
        · exact hkey (k', ps) (List.mem_cons_self _ _) q hq
        · simp only [List.mem_singleton] at hq
          subst hq
          exact ⟨lf, hlf, hk.symm⟩
      · exact hkey g (List.mem_cons_of_mem _ hg) q hq
    · rw [if_neg hk] at hg
      rcases List.mem_cons.mp hg with rfl | hg
      · exact hkey (k', ps) (List.mem_cons_self _ _) q hq
      · exact ih (fun g hg => hkey g (List.mem_cons_of_mem _ hg)) g hg q hq

theorem groupBy_fold (heap : List LocalFile) :
    ∀ (order : List Nat) (gs : List (Int × List Nat)),
      (∀ p ∈ order, p < heap.length) → KeysAgree gs heap →
      ((order.foldl
          (fun groups p =>
            match heap[p]? with
            | none => groups
            | some lf => groupInsert groups lf.MediaId p)
          gs).flatMap Prod.snd).Perm (gs.flatMap Prod.snd ++ order) ∧
        KeysAgree
          (order.foldl
            (fun groups p =>
              match heap[p]? with
              | none => groups
              | some lf => groupInsert groups lf.MediaId p)
            gs) heap := by
  intro order
  induction order with
  | nil => intro gs _ hkey; simpa using hkey
  | cons p ps ih =>
    intro gs hlt hkey
    have hp : p < heap.length := hlt p (List.mem_cons_self _ _)
    have hlf : heap[p]? = some heap[p] := List.getElem?_eq_getElem hp
    simp only [List.foldl_cons, hlf]
    obtain ⟨h1, h2⟩ := ih (groupInsert gs heap[p].MediaId p)
      (fun q hq => hlt q (List.mem_cons_of_mem _ hq))
      (groupInsert_keysAgree heap p heap[p] hlf gs hkey)
    refine ⟨?_, h2⟩
    refine h1.trans ?_
    have := (groupInsert_flatMap_perm heap[p].MediaId p gs).append_right ps
    simpa using this

theorem groupBy_spec (order : List Nat) (heap : List LocalFile)
    (hlt : ∀ p ∈ order, p < heap.length) :
    ((GroupBy order heap).flatMap Prod.snd).Perm order ∧ KeysAgree (GroupBy order heap) heap := by
  have h := groupBy_fold heap order [] hlt (fun g hg => absurd hg (List.not_mem_nil g))
  simpa [GroupBy] using h

theorem filter_flatMap_sublist (f : Int × List Nat → Bool) :
    ∀ gs : List (Int × List Nat),
      ((gs.filter f).flatMap Prod.snd).Sublist (gs.flatMap Prod.snd) := by
  intro gs
  induction gs with
  | nil => simp
  | cons g rest ih =>
    by_cases hf : f g = true
    · rw [List.filter_cons_of_pos hf, List.flatMap_cons, List.flatMap_cons]
      exact List.Sublist.append_left ih g.2
    · rw [List.filter_cons_of_neg hf, List.flatMap_cons]
      exact ih.trans (List.sublist_append_right g.2 _)

theorem hydrateOne_of_unmatched {Tree : Type} (fh : FileHydrator Tree) (lf : LocalFile)
    (h : lf.MediaId = 0) : hydrateOne fh lf = lf := by
  simp [hydrateOne, h]

/-- Whatever the arrival order, `HydrateMetadata` applies `hydrateOne` to every
file of the heap. -/
theorem HydrateMetadata_eq_map {Tree : Type} (fh : FileHydrator Tree) (order : List Nat)
    (heap : List LocalFile) (hperm : order.Perm (List.range heap.length)) :
    HydrateMetadata fh order heap = heap.map (hydrateOne fh) := by
  have hlt : ∀ p ∈ order, p < heap.length := fun p hp =>
    List.mem_range.mp (hperm.mem_iff.mp hp)
  obtain ⟨hgperm, hkey⟩ := groupBy_spec order heap hlt
  have hnd : ((GroupBy order heap).flatMap Prod.snd).Nodup :=
    (hgperm.trans hperm).nodup_iff.mpr (List.nodup_range _)
  apply List.ext_getElem?
  intro i
  unfold HydrateMetadata
  rw [hydrateGroups_getElem? fh _ heap
    ((filter_flatMap_sublist _ _).nodup hnd)
    (fun g hg => by simpa using (List.mem_filter.mp hg).2)
    (fun g hg => hkey g (List.mem_filter.mp hg).1), List.getElem?_map]
  split_ifs with hi
  · rfl
  · cases hlf : heap[i]? with
    | none => rfl
    | some lf =>
      have hilt : i < heap.length := by
        by_contra hge
        rw [List.getElem?_eq_none (not_lt.mp hge)] at hlf
        exact Option.noConfusion hlf
      have hio : i ∈ (GroupBy order heap).flatMap Prod.snd :=
        hgperm.mem_iff.mpr (hperm.mem_iff.mpr (List.mem_range.mpr hilt))
      obtain ⟨g, hg, hig⟩ := List.mem_flatMap.mp hio
      obtain ⟨lf2, hlf2, hk⟩ := hkey g hg i hig
      have hEq : lf2 = lf := Option.some.inj (hlf2.symm.trans hlf)
      subst hEq
      have hz : lf2.MediaId = 0 := by
        by_contra hne
        apply hi
        refine List.mem_flatMap.mpr ⟨g, List.mem_filter.mpr ⟨hg, ?_⟩, hig⟩
        simpa [hk] using hne
      simp [hydrateOne_of_unmatched fh lf2 hz]

/-! ## The file of a group after `hydrateGroupMetadata` -/

theorem hydrateGroupMetadata_at {Tree : Type} (fh : FileHydrator Tree) (mId : Int)
    (media : BaseMedia) (lfs : List Nat) (heap : List LocalFile) (p : Nat) (lf : LocalFile)
    (hfind : fh.media.find? (fun m => m.ID == mId) = some media)
    (hnd : lfs.Nodup) (hp : p ∈ lfs) (hlf : heap[p]? = some lf) :
    (hydrateGroupMetadata fh mId lfs heap)[p]? =
      some (hydrateFile fh media LoopState.init lf).1 := by
  unfold hydrateGroupMetadata
  rw [hfind]
  simp only
  rw [forEachFile_getElem? fh media lfs _ heap hnd (consistent_init fh media) p]
  simp [hp, hlf]

theorem hydrateFile_absolute_fetched {Tree : Type} (fh : FileHydrator Tree)
    (media : BaseMedia) (lf : LocalFile) (tree : Tree)
    (habs : AbsoluteRule fh media lf) (hfetch : fh.FetchMediaTree media = some tree) :
    (hydrateFile fh media LoopState.init lf).1 =
      (normalizeEpisodeNumber (some (fh.NewMediaTreeAnalysis tree)) lf (getEpisode fh lf)).1 := by
  obtain ⟨hs, hnc, hfmt, he, htot⟩ := habs
  have hle : ¬ getEpisode fh lf ≤ media.CurrentEpisodeCount := not_le.mpr he
  simp [hydrateFile, hs, hnc, hfmt, hle, he, htot, LoopState.init, hfetch]

theorem hydrateFile_absolute_failed {Tree : Type} (fh : FileHydrator Tree)
    (media : BaseMedia) (lf : LocalFile)
    (habs : AbsoluteRule fh media lf) (hfetch : fh.FetchMediaTree media = none) :
    (hydrateFile fh media LoopState.init lf).1 = lf := by
  obtain ⟨hs, hnc, hfmt, he, htot⟩ := habs
  have hle : ¬ getEpisode fh lf ≤ media.CurrentEpisodeCount := not_le.mpr he
  simp [hydrateFile, hs, hnc, hfmt, hle, he, htot, LoopState.init, hfetch]

/-! ## The classification rules -/

/-- C1: in `hydrateGroupMetadata`, a file of the group that is not special, not
NC, whose media is not a movie and whose episode number `e` is at most the
current episode count ends with `Episode = 0`, `AniDBEpisode = "S1"` when
`e = 0`, and with `Episode = e`, `AniDBEpisode = Itoa e` otherwise; the two
flags keep their values. -/
theorem C1_episode_within_count {Tree : Type} (fh : FileHydrator Tree) (mId : Int)
    (media : BaseMedia) (lfs : List Nat) (heap : List LocalFile) (p : Nat) (lf : LocalFile)
    (hfind : fh.media.find? (fun m => m.ID == mId) = some media)
    (hnd : lfs.Nodup) (hp : p ∈ lfs) (hlf : heap[p]? = some lf)
    (hs : fh.ValueContainsSpecial lf.Name = false)
    (hnc : fh.ValueContainsNC lf.Name = false)
    (hfmt : media.Format ≠ MediaFormat.Movie)
    (he : getEpisode fh lf ≤ media.CurrentEpisodeCount) :
    ((hydrateGroupMetadata fh mId lfs heap)[p]?).map LocalFile.Metadata =
      some (if getEpisode fh lf = 0 then
          { lf.Metadata with Episode := 0, AniDBEpisode := "S1" }
        else
          { lf.Metadata with
            Episode := getEpisode fh lf, AniDBEpisode := Itoa (getEpisode fh lf) }) := by
  rw [hydrateGroupMetadata_at fh mId media lfs heap p lf hfind hnd hp hlf]
  by_cases h0 : getEpisode fh lf = 0
  · have he0 : (0 : Int) ≤ media.CurrentEpisodeCount := h0 ▸ he
    simp [hydrateFile, hs, hnc, hfmt, he0, h0, setEpisode]
  · simp [hydrateFile, hs, hnc, hfmt, he, h0, setEpisode]

/-- Scenario A: episode "5", a TV series with 12 episodes out: `Episode = 5`,
`AniDBEpisode = "5"`. -/
theorem C1_episode_within_count_witness :
    ((hydrateGroupMetadata (sampleHydrator [sampleTV] none (fun n => (n, false))) 7 [0]
        [sampleFile "a" "5" 7])[0]?).map LocalFile.Metadata =
      some ⟨5, "5", false, false⟩ :=
  (C1_episode_within_count (sampleHydrator [sampleTV] none (fun n => (n, false))) 7 sampleTV
    [0] [sampleFile "a" "5" 7] 0 (sampleFile "a" "5" 7)
    (by decide) (by decide) (by decide) (by decide) (by decide) (by decide) (by decide)
    (by decide)).trans (by decide)

/-- C2: in `hydrateGroupMetadata`, for a file of the group under the
absolute-numbering rule (not special, not NC, media not a movie, episode `e`
above the current count, total count not 1) whose relation tree fetch
succeeds: if the analysis maps `e` to `(r, true)` the file ends with
`Episode = r`, `AniDBEpisode = Itoa r` and `normalizeEpisodeNumber` returns no
error; if the analysis reports no mapping the file ends with `Episode = e`,
`AniDBEpisode = Itoa e` and `normalizeEpisodeNumber` returns an error. -/
theorem C2_absolute_episode_normalized {Tree : Type} (fh : FileHydrator Tree) (mId : Int)
    (media : BaseMedia) (lfs : List Nat) (heap : List LocalFile) (p : Nat) (lf : LocalFile)
    (tree : Tree)
    (hfind : fh.media.find? (fun m => m.ID == mId) = some media)
    (hnd : lfs.Nodup) (hp : p ∈ lfs) (hlf : heap[p]? = some lf)
    (hs : fh.ValueContainsSpecial lf.Name = false)
    (hnc : fh.ValueContainsNC lf.Name = false)
    (hfmt : media.Format ≠ MediaFormat.Movie)
    (he : getEpisode fh lf > media.CurrentEpisodeCount)
    (htot : media.TotalEpisodeCount ≠ 1)
    (hfetch : fh.FetchMediaTree media = some tree) :
    (∀ r : Int,
      (fh.NewMediaTreeAnalysis tree).getRelativeEpisodeNumber (getEpisode fh lf) = (r, true) →
        ((hydrateGroupMetadata fh mId lfs heap)[p]?).map LocalFile.Metadata =
            some { lf.Metadata with Episode := r, AniDBEpisode := Itoa r } ∧
          (normalizeEpisodeNumber (some (fh.NewMediaTreeAnalysis tree)) lf
            (getEpisode fh lf)).2 = none) ∧
    (((fh.NewMediaTreeAnalysis tree).getRelativeEpisodeNumber (getEpisode fh lf)).2 = false →
        ((hydrateGroupMetadata fh mId lfs heap)[p]?).map LocalFile.Metadata =
            some { lf.Metadata with
              Episode := getEpisode fh lf, AniDBEpisode := Itoa (getEpisode fh lf) } ∧
          (normalizeEpisodeNumber (some (fh.NewMediaTreeAnalysis tree)) lf
            (getEpisode fh lf)).2 = some "[hydrator] could not normalize episode number") := by
  rw [hydrateGroupMetadata_at fh mId media lfs heap p lf hfind hnd hp hlf,
    hydrateFile_absolute_fetched fh media lf tree ⟨hs, hnc, hfmt, he, htot⟩ hfetch]
  constructor
  · intro r hr
    simp [normalizeEpisodeNumber, hr, setEpisode]
  · intro hr
    cases hrel : (fh.NewMediaTreeAnalysis tree).getRelativeEpisodeNumber (getEpisode fh lf) with
    | mk r ok =>
      rw [hrel] at hr
      simp only at hr
      subst hr
      simp [normalizeEpisodeNumber, hrel, setEpisode]

/-- Scenario E: episode "30", 12 episodes out, 25 planned, the analysis maps 30
to 6: `Episode = 6`, `AniDBEpisode = "6"`. -/
theorem C2_absolute_episode_normalized_witness :
    ((hydrateGroupMetadata (sampleHydrator [sampleTV] (some ()) (fun n => (n - 24, true))) 7
        [0] [sampleFile "b" "30" 7])[0]?).map LocalFile.Metadata =
      some ⟨6, "6", false, false⟩ :=
  ((C2_absolute_episode_normalized
    (sampleHydrator [sampleTV] (some ()) (fun n => (n - 24, true))) 7 sampleTV
    [0] [sampleFile "b" "30" 7] 0 (sampleFile "b" "30" 7) ()
    (by decide) (by decide) (by decide) (by decide) (by decide) (by decide) (by decide)
    (by decide) (by decide) (by decide)).1 6 (by decide)).1.trans (by decide)

/-- C3: scenario F on the code. Episode "30", 12 episodes out, 25 planned, the
tree fetch fails: `normalizeEpisodeNumber` is not called and the file keeps
`Episode = 0` and the empty `AniDBEpisode` it had, not `30` and `"30"`. -/
theorem C3_fetch_failure_leaves_file_unchanged :
    AbsoluteRule (sampleHydrator [sampleTV] none (fun n => (n - 24, true))) sampleTV
        (sampleFile "b" "30" 7) ∧
      getEpisode (sampleHydrator [sampleTV] none (fun n => (n - 24, true)))
        (sampleFile "b" "30" 7) = 30 ∧
      ((hydrateGroupMetadata (sampleHydrator [sampleTV] none (fun n => (n - 24, true))) 7
        [0] [sampleFile "b" "30" 7])[0]?).map LocalFile.Metadata =
          some ⟨0, "", false, false⟩ ∧
      HydrateMetadata (sampleHydrator [sampleTV] none (fun n => (n - 24, true))) [0]
        [sampleFile "b" "30" 7] = [sampleFile "b" "30" 7] := by
  decide

/-- C4: in `hydrateGroupMetadata`, a file of the group flagged special ends
with `IsSpecial = true` and `IsNC` unchanged, whatever the NC marker, the media
and its counts; with an episode number `e ≥ 0` it gets `Episode = e` and
`AniDBEpisode = "S" ++ Itoa e`, and otherwise (nothing parsed: `e = -1`)
`Episode` and `AniDBEpisode` keep their values. -/
theorem C4_special_rule_first {Tree : Type} (fh : FileHydrator Tree) (mId : Int)
    (media : BaseMedia) (lfs : List Nat) (heap : List LocalFile) (p : Nat) (lf : LocalFile)
    (hfind : fh.media.find? (fun m => m.ID == mId) = some media)
    (hnd : lfs.Nodup) (hp : p ∈ lfs) (hlf : heap[p]? = some lf)
    (hs : fh.ValueContainsSpecial lf.Name = true) :
    ((hydrateGroupMetadata fh mId lfs heap)[p]?).map LocalFile.Metadata =
        some (if 0 ≤ getEpisode fh lf then
            { Episode := getEpisode fh lf, AniDBEpisode := "S" ++ Itoa (getEpisode fh lf),
              IsSpecial := true, IsNC := lf.Metadata.IsNC }
          else
            { Episode := lf.Metadata.Episode, AniDBEpisode := lf.Metadata.AniDBEpisode,
              IsSpecial := true, IsNC := lf.Metadata.IsNC }) ∧
      ((lf.ParsedData.Episode.length = 0 ∨ fh.StringToInt lf.ParsedData.Episode = none) →
        ¬ 0 ≤ getEpisode fh lf) := by
  rw [hydrateGroupMetadata_at fh mId media lfs heap p lf hfind hnd hp hlf]
  constructor
  · by_cases h0 : 0 ≤ getEpisode fh lf
    · have h1 : -1 < getEpisode fh lf := by omega
      simp [hydrateFile, hs, h0, h1, setEpisode]
    · have h1 : ¬ -1 < getEpisode fh lf := by omega
      simp [hydrateFile, hs, h0, h1, setEpisode]
  · rintro (h | h)
    · simp [getEpisode, h]
    · simp [getEpisode, h]

/-- Scenario C: a special with episode "2": `IsSpecial = true`, `Episode = 2`,
`AniDBEpisode = "S2"`. -/
theorem C4_special_rule_first_witness :
    ((hydrateGroupMetadata (sampleHydrator [sampleTV] none (fun n => (n, false))) 7 [0]
        [sampleFile "SP" "2" 7])[0]?).map LocalFile.Metadata =
      some ⟨2, "S2", true, false⟩ :=
  (C4_special_rule_first (sampleHydrator [sampleTV] none (fun n => (n, false))) 7 sampleTV
    [0] [sampleFile "SP" "2" 7] 0 (sampleFile "SP" "2" 7)
    (by decide) (by decide) (by decide) (by decide) (by decide)).1.trans (by decide)

/-- C5: in `hydrateGroupMetadata`, a file of the group that is not special and
not NC and whose media is a movie ends with `Episode = 1` and
`AniDBEpisode = "1"`, whatever its episode string. -/
theorem C5_movie_rule {Tree : Type} (fh : FileHydrator Tree) (mId : Int)
    (media : BaseMedia) (lfs : List Nat) (heap : List LocalFile) (p : Nat) (lf : LocalFile)
    (hfind : fh.media.find? (fun m => m.ID == mId) = some media)
    (hnd : lfs.Nodup) (hp : p ∈ lfs) (hlf : heap[p]? = some lf)
    (hs : fh.ValueContainsSpecial lf.Name = false)
    (hnc : fh.ValueContainsNC lf.Name = false)
    (hfmt : media.Format = MediaFormat.Movie) :
    ((hydrateGroupMetadata fh mId lfs heap)[p]?).map LocalFile.Metadata =
      some { lf.Metadata with Episode := 1, AniDBEpisode := "1" } := by
  rw [hydrateGroupMetadata_at fh mId media lfs heap p lf hfind hnd hp hlf]
  simp [hydrateFile, hs, hnc, hfmt, setEpisode]

/-- A movie file with episode "30": `Episode = 1`, `AniDBEpisode = "1"`. -/
theorem C5_movie_rule_witness :
    ((hydrateGroupMetadata
        (sampleHydrator [⟨9, MediaFormat.Movie, 1, 1⟩] none (fun n => (n, false))) 9 [0]
        [sampleFile "m" "30" 9])[0]?).map LocalFile.Metadata =
      some ⟨1, "1", false, false⟩ :=
  (C5_movie_rule (sampleHydrator [⟨9, MediaFormat.Movie, 1, 1⟩] none (fun n => (n, false))) 9
    ⟨9, MediaFormat.Movie, 1, 1⟩ [0] [sampleFile "m" "30" 9] 0 (sampleFile "m" "30" 9)
    (by decide) (by decide) (by decide) (by decide) (by decide) (by decide)
    (by decide)).trans (by decide)

/-- C6: in `hydrateGroupMetadata`, a file of the group that is not special and
is flagged NC ends with `Episode = 1`, `AniDBEpisode = "NC"`, `IsNC = true` and
`IsSpecial` unchanged, whatever its episode and the media. -/
theorem C6_nc_rule {Tree : Type} (fh : FileHydrator Tree) (mId : Int)
    (media : BaseMedia) (lfs : List Nat) (heap : List LocalFile) (p : Nat) (lf : LocalFile)
    (hfind : fh.media.find? (fun m => m.ID == mId) = some media)
    (hnd : lfs.Nodup) (hp : p ∈ lfs) (hlf : heap[p]? = some lf)
    (hs : fh.ValueContainsSpecial lf.Name = false)
    (hnc : fh.ValueContainsNC lf.Name = true) :
    ((hydrateGroupMetadata fh mId lfs heap)[p]?).map LocalFile.Metadata =
      some { Episode := 1, AniDBEpisode := "NC", IsSpecial := lf.Metadata.IsSpecial,
             IsNC := true } := by
  rw [hydrateGroupMetadata_at fh mId media lfs heap p lf hfind hnd hp hlf]
  simp [hydrateFile, hs, hnc, setEpisode]

/-- An NC file of a movie, with episode "5": `Episode = 1`, `AniDBEpisode = "NC"`,
`IsNC = true`. -/
theorem C6_nc_rule_witness :
    ((hydrateGroupMetadata
        (sampleHydrator [⟨9, MediaFormat.Movie, 1, 1⟩] none (fun n => (n, false))) 9 [0]
        [sampleFile "NCED" "5" 9])[0]?).map LocalFile.Metadata =
      some ⟨1, "NC", false, true⟩ :=
  (C6_nc_rule (sampleHydrator [⟨9, MediaFormat.Movie, 1, 1⟩] none (fun n => (n, false))) 9
    ⟨9, MediaFormat.Movie, 1, 1⟩ [0] [sampleFile "NCED" "5" 9] 0 (sampleFile "NCED" "5" 9)
    (by decide) (by decide) (by decide) (by decide) (by decide) (by decide)).trans (by decide)

/-! ## Frame, labels and repeated hydration of one file -/

theorem setEpisode_frame (lf : LocalFile) (ep : Int) (s : String) :
    (setEpisode lf ep s).Name = lf.Name ∧ (setEpisode lf ep s).ParsedData = lf.ParsedData ∧
      (setEpisode lf ep s).MediaId = lf.MediaId := ⟨rfl, rfl, rfl⟩

theorem normalizeEpisodeNumber_frame (mta : Option MediaTreeAnalysis) (lf : LocalFile)
    (ep : Int) :
    (normalizeEpisodeNumber mta lf ep).1.Name = lf.Name ∧
      (normalizeEpisodeNumber mta lf ep).1.ParsedData = lf.ParsedData ∧
      (normalizeEpisodeNumber mta lf ep).1.MediaId = lf.MediaId := by
  cases mta with
  | none => exact ⟨rfl, rfl, rfl⟩
  | some a =>
    unfold normalizeEpisodeNumber
    simp only
    cases a.getRelativeEpisodeNumber ep with
    | mk r ok => cases ok <;> exact ⟨rfl, rfl, rfl⟩

theorem hydrateFile_frame {Tree : Type} (fh : FileHydrator Tree) (media : BaseMedia)
    (st : LoopState) (lf : LocalFile) :
    (hydrateFile fh media st lf).1.Name = lf.Name ∧
      (hydrateFile fh media st lf).1.ParsedData = lf.ParsedData ∧
      (hydrateFile fh media st lf).1.MediaId = lf.MediaId := by
  unfold hydrateFile
  simp only
  split_ifs <;>
    first
    | exact ⟨rfl, rfl, rfl⟩
    | exact normalizeEpisodeNumber_frame _ lf _
    | (cases fh.FetchMediaTree media <;>
        first
        | exact ⟨rfl, rfl, rfl⟩
        | exact normalizeEpisodeNumber_frame _ lf _)

theorem hydrateOne_frame {Tree : Type} (fh : FileHydrator Tree) (lf : LocalFile) :
    (hydrateOne fh lf).Name = lf.Name ∧ (hydrateOne fh lf).ParsedData = lf.ParsedData ∧
      (hydrateOne fh lf).MediaId = lf.MediaId := by
  unfold hydrateOne
  split_ifs
  · exact ⟨rfl, rfl, rfl⟩
  · cases fh.media.find? (fun media => media.ID == lf.MediaId) with
    | none => exact ⟨rfl, rfl, rfl⟩
    | some media => exact hydrateFile_frame fh media LoopState.init lf

theorem toDigitsCore_ne_nil (b : Nat) :
    ∀ (fuel n : Nat) (ds : List Char), ds ≠ [] → Nat.toDigitsCore b fuel n ds ≠ [] := by
  intro fuel
  induction fuel with
  | zero => intro n ds h; simpa [Nat.toDigitsCore] using h
  | succ fuel ih =>
    intro n ds _
    unfold Nat.toDigitsCore
    simp only
    split_ifs
    · exact List.cons_ne_nil _ _
    · exact ih _ _ (List.cons_ne_nil _ _)

theorem repr_length_pos (n : Nat) : 0 < (Nat.repr n).length := by
  have h : Nat.toDigits 10 n ≠ [] := by
    unfold Nat.toDigits Nat.toDigitsCore
    simp only
    split_ifs
    · exact List.cons_ne_nil _ _
    · exact toDigitsCore_ne_nil 10 _ _ _ (List.cons_ne_nil _ _)
  simp only [Nat.repr, String.length, List.asString]
  exact List.length_pos.mpr h

theorem Itoa_length_pos (n : Int) : 0 < (Itoa n).length := by
  cases n with
  | ofNat n => exact repr_length_pos n
  | negSucc n =>
    simp only [Itoa, String.length_append]
    exact Nat.lt_of_lt_of_le (repr_length_pos (n + 1)) (Nat.le_add_left _ _)

theorem ne_empty_of_length_pos (s : String) (h : 0 < s.length) : s ≠ "" := by
  intro hs
  rw [hs] at h
  exact Nat.lt_irrefl 0 h

theorem Itoa_ne_empty (n : Int) : Itoa n ≠ "" :=
  ne_empty_of_length_pos _ (Itoa_length_pos n)

theorem special_label_ne_empty (n : Int) : "S" ++ Itoa n ≠ "" := by
  apply ne_empty_of_length_pos
  simp only [String.length_append]
  exact Nat.lt_of_lt_of_le (Itoa_length_pos n) (Nat.le_add_left _ _)

theorem normalizeEpisodeNumber_label (a : MediaTreeAnalysis) (lf : LocalFile) (ep : Int) :
    (normalizeEpisodeNumber (some a) lf ep).1.Metadata.AniDBEpisode ≠ "" := by
  unfold normalizeEpisodeNumber
  simp only
  cases a.getRelativeEpisodeNumber ep with
  | mk r ok => cases ok <;> exact Itoa_ne_empty _

theorem normalizeEpisodeNumber_overwrites (a : MediaTreeAnalysis) (lf : LocalFile)
    (md : Metadata) (ep : Int) :
    (normalizeEpisodeNumber (some a) { lf with Metadata := md } ep).1.Metadata.Episode =
        (normalizeEpisodeNumber (some a) lf ep).1.Metadata.Episode ∧
      (normalizeEpisodeNumber (some a) { lf with Metadata := md } ep).1.Metadata.AniDBEpisode =
        (normalizeEpisodeNumber (some a) lf ep).1.Metadata.AniDBEpisode := by
  unfold normalizeEpisodeNumber
  simp only
  cases a.getRelativeEpisodeNumber ep with
  | mk r ok => cases ok <;> exact ⟨rfl, rfl⟩

theorem normalizeEpisodeNumber_idem (a : MediaTreeAnalysis) (lf : LocalFile) (ep : Int) :
    (normalizeEpisodeNumber (some a) (normalizeEpisodeNumber (some a) lf ep).1 ep).1 =
      (normalizeEpisodeNumber (some a) lf ep).1 := by
  unfold normalizeEpisodeNumber
  simp only
  cases a.getRelativeEpisodeNumber ep with
  | mk r ok => cases ok <;> rfl

theorem getEpisode_congr {Tree : Type} (fh : FileHydrator Tree) (lf lf' : LocalFile)
    (h : lf'.ParsedData = lf.ParsedData) : getEpisode fh lf' = getEpisode fh lf := by
  unfold getEpisode
  rw [h]

/-! ### The result of each rule -/

theorem hydrateFile_special_parsed {Tree : Type} (fh : FileHydrator Tree) (media : BaseMedia)
    (st : LoopState) (lf : LocalFile) (hs : fh.ValueContainsSpecial lf.Name = true)
    (h1 : -1 < getEpisode fh lf) :
    (hydrateFile fh media st lf).1 =
      setEpisode { lf with Metadata := { lf.Metadata with IsSpecial := true } }
        (getEpisode fh lf) ("S" ++ Itoa (getEpisode fh lf)) := by
  simp [hydrateFile, hs, h1]

theorem hydrateFile_special_unparsed {Tree : Type} (fh : FileHydrator Tree)
    (media : BaseMedia) (st : LoopState) (lf : LocalFile)
    (hs : fh.ValueContainsSpecial lf.Name = true) (h1 : ¬ -1 < getEpisode fh lf) :
    (hydrateFile fh media st lf).1 =
      { lf with Metadata := { lf.Metadata with IsSpecial := true } } := by
  simp [hydrateFile, hs, h1]

theorem hydrateFile_nc {Tree : Type} (fh : FileHydrator Tree) (media : BaseMedia)
    (st : LoopState) (lf : LocalFile) (hs : fh.ValueContainsSpecial lf.Name = false)
    (hnc : fh.ValueContainsNC lf.Name = true) :
    (hydrateFile fh media st lf).1 =
      { lf with Metadata := { Episode := 1, AniDBEpisode := "NC",
                              IsSpecial := lf.Metadata.IsSpecial, IsNC := true } } := by
  simp [hydrateFile, hs, hnc, setEpisode]

theorem hydrateFile_movie {Tree : Type} (fh : FileHydrator Tree) (media : BaseMedia)
    (st : LoopState) (lf : LocalFile) (hs : fh.ValueContainsSpecial lf.Name = false)
    (hnc : fh.ValueContainsNC lf.Name = false) (hfmt : media.Format = MediaFormat.Movie) :
    (hydrateFile fh media st lf).1 = setEpisode lf 1 "1" := by
  simp [hydrateFile, hs, hnc, hfmt]

theorem hydrateFile_zero {Tree : Type} (fh : FileHydrator Tree) (media : BaseMedia)
    (st : LoopState) (lf : LocalFile) (hs : fh.ValueContainsSpecial lf.Name = false)
    (hnc : fh.ValueContainsNC lf.Name = false) (hfmt : media.Format ≠ MediaFormat.Movie)
    (hle : getEpisode fh lf ≤ media.CurrentEpisodeCount) (h0 : getEpisode fh lf = 0) :
    (hydrateFile fh media st lf).1 = setEpisode lf 0 "S1" := by
  have he0 : (0 : Int) ≤ media.CurrentEpisodeCount := h0 ▸ hle
  simp [hydrateFile, hs, hnc, hfmt, he0, h0]

theorem hydrateFile_within {Tree : Type} (fh : FileHydrator Tree) (media : BaseMedia)
    (st : LoopState) (lf : LocalFile) (hs : fh.ValueContainsSpecial lf.Name = false)
    (hnc : fh.ValueContainsNC lf.Name = false) (hfmt : media.Format ≠ MediaFormat.Movie)
    (hle : getEpisode fh lf ≤ media.CurrentEpisodeCount) (h0 : getEpisode fh lf ≠ 0) :
    (hydrateFile fh media st lf).1 =
      setEpisode lf (getEpisode fh lf) (Itoa (getEpisode fh lf)) := by
  simp [hydrateFile, hs, hnc, hfmt, hle, h0]

theorem hydrateFile_single {Tree : Type} (fh : FileHydrator Tree) (media : BaseMedia)
    (st : LoopState) (lf : LocalFile) (hs : fh.ValueContainsSpecial lf.Name = false)
    (hnc : fh.ValueContainsNC lf.Name = false) (hfmt : media.Format ≠ MediaFormat.Movie)
    (hgt : getEpisode fh lf > media.CurrentEpisodeCount)
    (htot : media.TotalEpisodeCount = 1) :
    (hydrateFile fh media st lf).1 = setEpisode lf 1 "1" := by
  have hle : ¬ getEpisode fh lf ≤ media.CurrentEpisodeCount := not_le.mpr hgt
  simp [hydrateFile, hs, hnc, hfmt, hle, hgt, htot]

/-- Hydrating a file whose rule assigns `Episode` and `AniDBEpisode` overwrites
both, with a non-empty label: the result does not depend on the metadata the
file had. The rules that assign nothing are excluded by the two hypotheses. -/
theorem hydrateFile_overwrites {Tree : Type} (fh : FileHydrator Tree) (media : BaseMedia)
    (lf : LocalFile) (md : Metadata)
    (hsp : fh.ValueContainsSpecial lf.Name = true → 0 ≤ getEpisode fh lf)
    (hfetch : AbsoluteRule fh media lf → fh.FetchMediaTree media ≠ none) :
    (hydrateFile fh media LoopState.init lf).1.Metadata.AniDBEpisode ≠ "" ∧
      (hydrateFile fh media LoopState.init { lf with Metadata := md }).1.Metadata.Episode =
        (hydrateFile fh media LoopState.init lf).1.Metadata.Episode ∧
      (hydrateFile fh media LoopState.init { lf with Metadata := md }).1.Metadata.AniDBEpisode =
        (hydrateFile fh media LoopState.init lf).1.Metadata.AniDBEpisode := by
  cases hs : fh.ValueContainsSpecial lf.Name with
  | true =>
    have h1 : -1 < getEpisode fh lf := by have := hsp hs; omega
    rw [hydrateFile_special_parsed fh media _ lf hs h1,
      hydrateFile_special_parsed fh media _ { lf with Metadata := md } hs h1]
    exact ⟨special_label_ne_empty _, rfl, rfl⟩
  | false =>
    cases hnc : fh.ValueContainsNC lf.Name with
    | true =>
      rw [hydrateFile_nc fh media _ lf hs hnc,
        hydrateFile_nc fh media _ { lf with Metadata := md } hs hnc]
      exact ⟨by simp [setEpisode], rfl, rfl⟩
    | false =>
      by_cases hfmt : media.Format = MediaFormat.Movie
      · rw [hydrateFile_movie fh media _ lf hs hnc hfmt,
          hydrateFile_movie fh media _ { lf with Metadata := md } hs hnc hfmt]
        exact ⟨by simp [setEpisode], rfl, rfl⟩
      · by_cases hle : getEpisode fh lf ≤ media.CurrentEpisodeCount
        · by_cases h0 : getEpisode fh lf = 0
          · rw [hydrateFile_zero fh media _ lf hs hnc hfmt hle h0,
              hydrateFile_zero fh media _ { lf with Metadata := md } hs hnc hfmt hle h0]
            exact ⟨by simp [setEpisode], rfl, rfl⟩
          · rw [hydrateFile_within fh media _ lf hs hnc hfmt hle h0,
              hydrateFile_within fh media _ { lf with Metadata := md } hs hnc hfmt hle h0]
            exact ⟨Itoa_ne_empty _, rfl, rfl⟩
        · have hgt : getEpisode fh lf > media.CurrentEpisodeCount := not_le.mp hle
          by_cases htot : media.TotalEpisodeCount = 1
          · rw [hydrateFile_single fh media _ lf hs hnc hfmt hgt htot,
              hydrateFile_single fh media _ { lf with Metadata := md } hs hnc hfmt hgt htot]
            exact ⟨by simp [setEpisode], rfl, rfl⟩
          · have habs : AbsoluteRule fh media lf := ⟨hs, hnc, hfmt, hgt, htot⟩
            obtain ⟨tree, ht⟩ := Option.ne_none_iff_exists'.mp (hfetch habs)
            have habs2 : AbsoluteRule fh media { lf with Metadata := md } := habs
            have hE : getEpisode fh { lf with Metadata := md } = getEpisode fh lf := rfl
            rw [hydrateFile_absolute_fetched fh media lf tree habs ht,
              hydrateFile_absolute_fetched fh media _ tree habs2 ht, hE]
            exact ⟨normalizeEpisodeNumber_label _ lf _,
              normalizeEpisodeNumber_overwrites _ lf md _⟩

/-- Hydrating an already hydrated file changes nothing. -/
theorem hydrateFile_idem {Tree : Type} (fh : FileHydrator Tree) (media : BaseMedia)
    (lf : LocalFile) :
    (hydrateFile fh media LoopState.init (hydrateFile fh media LoopState.init lf).1).1 =
      (hydrateFile fh media LoopState.init lf).1 := by
  cases hs : fh.ValueContainsSpecial lf.Name with
  | true =>
    by_cases h1 : -1 < getEpisode fh lf
    · rw [hydrateFile_special_parsed fh media _ lf hs h1]
      exact hydrateFile_special_parsed fh media _
        (setEpisode { lf with Metadata := { lf.Metadata with IsSpecial := true } }
          (getEpisode fh lf) ("S" ++ Itoa (getEpisode fh lf))) hs h1
    · rw [hydrateFile_special_unparsed fh media _ lf hs h1]
      exact hydrateFile_special_unparsed fh media _
        { lf with Metadata := { lf.Metadata with IsSpecial := true } } hs h1
  | false =>
    cases hnc : fh.ValueContainsNC lf.Name with
    | true =>
      rw [hydrateFile_nc fh media _ lf hs hnc]
      exact hydrateFile_nc fh media _
        { lf with Metadata := { Episode := 1, AniDBEpisode := "NC",
                                IsSpecial := lf.Metadata.IsSpecial, IsNC := true } } hs hnc
    | false =>
      by_cases hfmt : media.Format = MediaFormat.Movie
      · rw [hydrateFile_movie fh media _ lf hs hnc hfmt]
        exact hydrateFile_movie fh media _ (setEpisode lf 1 "1") hs hnc hfmt
      · by_cases hle : getEpisode fh lf ≤ media.CurrentEpisodeCount
        · by_cases h0 : getEpisode fh lf = 0
          · rw [hydrateFile_zero fh media _ lf hs hnc hfmt hle h0]
            exact hydrateFile_zero fh media _ (setEpisode lf 0 "S1") hs hnc hfmt hle h0
          · rw [hydrateFile_within fh media _ lf hs hnc hfmt hle h0]
            exact hydrateFile_within fh media _
              (setEpisode lf (getEpisode fh lf) (Itoa (getEpisode fh lf))) hs hnc hfmt hle h0
        · have hgt : getEpisode fh lf > media.CurrentEpisodeCount := not_le.mp hle
          by_cases htot : media.TotalEpisodeCount = 1
          · rw [hydrateFile_single fh media _ lf hs hnc hfmt hgt htot]
            exact hydrateFile_single fh media _ (setEpisode lf 1 "1") hs hnc hfmt hgt htot
          · have habs : AbsoluteRule fh media lf := ⟨hs, hnc, hfmt, hgt, htot⟩
            cases ht : fh.FetchMediaTree media with
            | none =>
              rw [hydrateFile_absolute_failed fh media lf habs ht,
                hydrateFile_absolute_failed fh media lf habs ht]
            | some tree =>
              rw [hydrateFile_absolute_fetched fh media lf tree habs ht]
              have hfr := normalizeEpisodeNumber_frame
                (some (fh.NewMediaTreeAnalysis tree)) lf (getEpisode fh lf)
              have hE := getEpisode_congr fh lf _ hfr.2.1
              have habs2 : AbsoluteRule fh media (normalizeEpisodeNumber
                  (some (fh.NewMediaTreeAnalysis tree)) lf (getEpisode fh lf)).1 := by
                unfold AbsoluteRule
                rw [hfr.1, hE]
                exact habs
              rw [hydrateFile_absolute_fetched fh media _ tree habs2 ht, hE]
              exact normalizeEpisodeNumber_idem _ lf _

theorem hydrateOne_idem {Tree : Type} (fh : FileHydrator Tree) (lf : LocalFile) :
    hydrateOne fh (hydrateOne fh lf) = hydrateOne fh lf := by
  by_cases hm : lf.MediaId = 0
  · rw [hydrateOne_of_unmatched fh lf hm, hydrateOne_of_unmatched fh lf hm]
  · cases hfind : fh.media.find? (fun media => media.ID == lf.MediaId) with
    | none =>
      have h1 : hydrateOne fh lf = lf := by simp [hydrateOne, hfind]
      rw [h1, h1]
    | some media =>
      have h1 : hydrateOne fh lf = (hydrateFile fh media LoopState.init lf).1 := by
        simp [hydrateOne, hm, hfind]
      have h2 : hydrateOne fh (hydrateFile fh media LoopState.init lf).1 =
          (hydrateFile fh media LoopState.init
            (hydrateFile fh media LoopState.init lf).1).1 := by
        have hid2 := (hydrateFile_frame fh media LoopState.init lf).2.2
        simp [hydrateOne, hid2, hm, hfind]
      rw [h1, h2, hydrateFile_idem]

theorem HydrateMetadata_getElem? {Tree : Type} (fh : FileHydrator Tree) (order : List Nat)
    (heap : List LocalFile) (hperm : order.Perm (List.range heap.length)) (i : Nat) :
    (HydrateMetadata fh order heap)[i]? = heap[i]?.map (hydrateOne fh) := by
  rw [HydrateMetadata_eq_map fh order heap hperm, List.getElem?_map]

/-! ## Properties of `HydrateMetadata` -/

/-- C7: `HydrateMetadata` never hydrates an unmatched file: whatever the arrival
order, a file with `MediaId = 0` is after the call exactly what it was before
(its `Metadata` included), and no file has its `MediaId` changed. -/
theorem C7_unmatched_files_untouched {Tree : Type} (fh : FileHydrator Tree)
    (order : List Nat) (heap : List LocalFile)
    (hperm : order.Perm (List.range heap.length)) :
    (∀ (i : Nat) (lf : LocalFile), heap[i]? = some lf → lf.MediaId = 0 →
        (HydrateMetadata fh order heap)[i]? = some lf) ∧
      (HydrateMetadata fh order heap).map LocalFile.MediaId = heap.map LocalFile.MediaId := by
  constructor
  · intro i lf hlf hm
    rw [HydrateMetadata_getElem? fh order heap hperm i, hlf, Option.map_some',
      hydrateOne_of_unmatched fh lf hm]
  · rw [HydrateMetadata_eq_map fh order heap hperm, List.map_map]
    apply List.map_congr_left
    intro lf _
    exact (hydrateOne_frame fh lf).2.2

/-- A matched and an unmatched file: the unmatched one is left as it was and the
media ids are still `7` and `0`. -/
theorem C7_unmatched_files_untouched_witness :
    (HydrateMetadata (sampleHydrator [sampleTV] none (fun n => (n, false))) [1, 0]
        [sampleFile "a" "5" 7, sampleFile "d" "5" 0])[1]? = some (sampleFile "d" "5" 0) ∧
      (HydrateMetadata (sampleHydrator [sampleTV] none (fun n => (n, false))) [1, 0]
        [sampleFile "a" "5" 7, sampleFile "d" "5" 0]).map LocalFile.MediaId = [7, 0] :=
  ⟨(C7_unmatched_files_untouched (sampleHydrator [sampleTV] none (fun n => (n, false)))
      [1, 0] [sampleFile "a" "5" 7, sampleFile "d" "5" 0] (by decide)).1 1
      (sampleFile "d" "5" 0) (by decide) (by decide),
    (C7_unmatched_files_untouched (sampleHydrator [sampleTV] none (fun n => (n, false)))
      [1, 0] [sampleFile "a" "5" 7, sampleFile "d" "5" 0] (by decide)).2.trans (by decide)⟩

/-- C8: on the code, a matched file with an empty episode string, not special,
not NC, of a TV series, has `Episode = 0` before `HydrateMetadata` and
`Episode = -1`, `AniDBEpisode = "-1"` after it: the value `-1` that stands for
"no episode parsed" is written to the metadata by lines 115-116. -/
theorem C8_unparsed_episode_becomes_negative :
    (sampleFile "c" "" 7).MediaId ≠ 0 ∧ 0 ≤ (sampleFile "c" "" 7).Metadata.Episode ∧
      getEpisode (sampleHydrator [sampleTV] none (fun n => (n, false)))
        (sampleFile "c" "" 7) = -1 ∧
      (HydrateMetadata (sampleHydrator [sampleTV] none (fun n => (n, false))) [0]
        [sampleFile "c" "" 7]).map LocalFile.Metadata = [⟨-1, "-1", false, false⟩] := by
  decide

/-- C9 fails on the code: a matched file (media id 7), not special, whose media
id is absent from the hydrator's media list, is returned as it was, with the
empty `AniDBEpisode`. -/
theorem C9_absent_media_counterexample :
    (sampleFile "a" "5" 7).MediaId ≠ 0 ∧
      (sampleHydrator [] (some ()) (fun n => (n, false))).ValueContainsSpecial
        (sampleFile "a" "5" 7).Name = false ∧
      ((HydrateMetadata (sampleHydrator [] (some ()) (fun n => (n, false))) [0]
        [sampleFile "a" "5" 7])[0]?).map (fun f => f.Metadata.AniDBEpisode) = some "" := by
  decide

/-- A matched file whose media is in the media list, whose rule assigns
`Episode` and `AniDBEpisode`: after `HydrateMetadata` the label is non-empty and
both values are the same whatever metadata the file had before. -/
theorem HydrateMetadata_assigns {Tree : Type} (fh : FileHydrator Tree)
    (order : List Nat) (heap : List LocalFile) (i : Nat) (lf : LocalFile) (media : BaseMedia)
    (hperm : order.Perm (List.range heap.length))
    (hlf : heap[i]? = some lf) (hm : lf.MediaId ≠ 0)
    (hfind : fh.media.find? (fun m => m.ID == lf.MediaId) = some media)
    (hsp : fh.ValueContainsSpecial lf.Name = true → 0 ≤ getEpisode fh lf)
    (hfetch : AbsoluteRule fh media lf → fh.FetchMediaTree media ≠ none) :
    ∃ lf' : LocalFile, (HydrateMetadata fh order heap)[i]? = some lf' ∧
      lf'.Metadata.AniDBEpisode ≠ "" ∧
      ∀ md : Metadata,
        ((HydrateMetadata fh order (heap.set i { lf with Metadata := md }))[i]?).map
            (fun f => (f.Metadata.Episode, f.Metadata.AniDBEpisode)) =
          some (lf'.Metadata.Episode, lf'.Metadata.AniDBEpisode) := by
  have hone : ∀ md : Metadata, hydrateOne fh { lf with Metadata := md } =
      (hydrateFile fh media LoopState.init { lf with Metadata := md }).1 := by
    intro md
    have hfind2 : fh.media.find?
        (fun m => m.ID == ({ lf with Metadata := md } : LocalFile).MediaId) = some media := hfind
    have hm2 : ({ lf with Metadata := md } : LocalFile).MediaId ≠ 0 := hm
    simp only [hydrateOne, hm2, hfind2, if_false]
  have hilt : i < heap.length := by
    by_contra hge
    rw [List.getElem?_eq_none (not_lt.mp hge)] at hlf
    exact Option.noConfusion hlf
  refine ⟨(hydrateFile fh media LoopState.init lf).1, ?_, ?_, ?_⟩
  · rw [HydrateMetadata_getElem? fh order heap hperm i, hlf, Option.map_some']
    exact congrArg some (hone lf.Metadata)
  · exact (hydrateFile_overwrites fh media lf lf.Metadata hsp hfetch).1
  · intro md
    have hperm2 : order.Perm (List.range (heap.set i { lf with Metadata := md }).length) := by
      rw [List.length_set]
      exact hperm
    rw [HydrateMetadata_getElem? fh order _ hperm2 i]
    simp only [List.getElem?_set, hilt, if_true, Option.map_some', hone md]
    obtain ⟨_, h2, h3⟩ := hydrateFile_overwrites fh media lf md hsp hfetch
    rw [h2, h3]

/-- A matched file whose media id is not in the media list is returned as it
was. -/
theorem HydrateMetadata_absent_media {Tree : Type} (fh : FileHydrator Tree)
    (order : List Nat) (heap : List LocalFile) (i : Nat) (lf : LocalFile)
    (hperm : order.Perm (List.range heap.length))
    (hlf : heap[i]? = some lf)
    (hfind : fh.media.find? (fun m => m.ID == lf.MediaId) = none) :
    (HydrateMetadata fh order heap)[i]? = some lf := by
  rw [HydrateMetadata_getElem? fh order heap hperm i, hlf, Option.map_some']
  simp [hydrateOne, hfind]

/-- C9, amended: for every matched file (`MediaId ≠ 0`), whatever the arrival
order: if its media id is absent from the hydrator's media list, the file is
after `HydrateMetadata` exactly what it was before; if its media id is in the
list then, unless the file is special with no episode number `≥ 0` parsed (and
leaving aside the absolute-numbering rule with a failing tree fetch), after
`HydrateMetadata` the file's `AniDBEpisode` is non-empty and its `Episode` and
`AniDBEpisode` have been assigned: they are the same whatever metadata the
file had before. -/
theorem C9_assigned_or_untouched {Tree : Type} (fh : FileHydrator Tree)
    (order : List Nat) (heap : List LocalFile) (i : Nat) (lf : LocalFile)
    (hperm : order.Perm (List.range heap.length))
    (hlf : heap[i]? = some lf) (hm : lf.MediaId ≠ 0) :
    (fh.media.find? (fun m => m.ID == lf.MediaId) = none →
        (HydrateMetadata fh order heap)[i]? = some lf) ∧
      (∀ media : BaseMedia, fh.media.find? (fun m => m.ID == lf.MediaId) = some media →
        (fh.ValueContainsSpecial lf.Name = true → 0 ≤ getEpisode fh lf) →
        (AbsoluteRule fh media lf → fh.FetchMediaTree media ≠ none) →
        ∃ lf' : LocalFile, (HydrateMetadata fh order heap)[i]? = some lf' ∧
          lf'.Metadata.AniDBEpisode ≠ "" ∧
          ∀ md : Metadata,
            ((HydrateMetadata fh order (heap.set i { lf with Metadata := md }))[i]?).map
                (fun f => (f.Metadata.Episode, f.Metadata.AniDBEpisode)) =
              some (lf'.Metadata.Episode, lf'.Metadata.AniDBEpisode)) :=
  ⟨fun hfind => HydrateMetadata_absent_media fh order heap i lf hperm hlf hfind,
    fun media hfind hsp hfetch =>
      HydrateMetadata_assigns fh order heap i lf media hperm hlf hm hfind hsp hfetch⟩

/-- A matched file whose media id 7 is not in the (empty) media list comes back
as it was; a file with episode "5" of a 12-episode series whose tree cannot be
fetched does not reach the absolute-numbering rule and is numbered. -/
theorem C9_assigned_or_untouched_witness :
    (HydrateMetadata (sampleHydrator [] (some ()) (fun n => (n, false))) [0]
        [sampleFile "a" "5" 7])[0]? = some (sampleFile "a" "5" 7) ∧
      ∃ lf' : LocalFile,
        (HydrateMetadata (sampleHydrator [sampleTV] none (fun n => (n, false))) [0]
          [sampleFile "a" "5" 7])[0]? = some lf' ∧
        lf'.Metadata.AniDBEpisode ≠ "" ∧
        ∀ md : Metadata,
          ((HydrateMetadata (sampleHydrator [sampleTV] none (fun n => (n, false))) [0]
              ([sampleFile "a" "5" 7].set 0
                { sampleFile "a" "5" 7 with Metadata := md }))[0]?).map
              (fun f => (f.Metadata.Episode, f.Metadata.AniDBEpisode)) =
            some (lf'.Metadata.Episode, lf'.Metadata.AniDBEpisode) :=
  ⟨(C9_assigned_or_untouched (sampleHydrator [] (some ()) (fun n => (n, false))) [0]
      [sampleFile "a" "5" 7] 0 (sampleFile "a" "5" 7)
      (by decide) (by decide) (by decide)).1 (by decide),
    (C9_assigned_or_untouched (sampleHydrator [sampleTV] none (fun n => (n, false))) [0]
      [sampleFile "a" "5" 7] 0 (sampleFile "a" "5" 7)
      (by decide) (by decide) (by decide)).2 sampleTV (by decide) (by decide) (by decide)⟩

/-- C10: hydration is idempotent: with the same media list and the same remote
answers, `HydrateMetadata` on the files left by a first call returns them
unchanged, whatever the arrival orders of the two calls. -/
theorem C10_hydration_idempotent {Tree : Type} (fh : FileHydrator Tree)
    (order1 order2 : List Nat) (heap : List LocalFile)
    (h1 : order1.Perm (List.range heap.length))
    (h2 : order2.Perm (List.range heap.length)) :
    HydrateMetadata fh order2 (HydrateMetadata fh order1 heap) =
      HydrateMetadata fh order1 heap := by
  rw [HydrateMetadata_eq_map fh order1 heap h1]
  have h2m : order2.Perm (List.range (heap.map (hydrateOne fh)).length) := by
    rw [List.length_map]
    exact h2
  rw [HydrateMetadata_eq_map fh order2 _ h2m, List.map_map]
  apply List.map_congr_left
  intro lf _
  exact hydrateOne_idem fh lf

/-- Three files of one series and an unmatched one, hydrated twice with
different arrival orders. -/
theorem C10_hydration_idempotent_witness :
    HydrateMetadata (sampleHydrator [sampleTV] (some ()) (fun n => (n - 24, true))) [1, 3, 0, 2]
        (HydrateMetadata (sampleHydrator [sampleTV] (some ()) (fun n => (n - 24, true)))
          [2, 0, 3, 1]
          [sampleFile "a" "5" 7, sampleFile "b" "30" 7, sampleFile "SP" "" 7,
            sampleFile "d" "5" 0]) =
      HydrateMetadata (sampleHydrator [sampleTV] (some ()) (fun n => (n - 24, true)))
        [2, 0, 3, 1]
        [sampleFile "a" "5" 7, sampleFile "b" "30" 7, sampleFile "SP" "" 7,
          sampleFile "d" "5" 0] :=
  C10_hydration_idempotent (sampleHydrator [sampleTV] (some ()) (fun n => (n - 24, true)))
    [2, 0, 3, 1] [1, 3, 0, 2]
    [sampleFile "a" "5" 7, sampleFile "b" "30" 7, sampleFile "SP" "" 7, sampleFile "d" "5" 0]
    (by decide) (by decide)

end Scanner

namespace AnimeFillerList

/-! ## The selection loop -/

theorem preferred_refl (a : CompResult) : Preferred a a := Or.inr ⟨rfl, Nat.le_refl _⟩

theorem preferred_trans {a b c : CompResult} (hab : Preferred a b) (hbc : Preferred b c) :
    Preferred a c := by
  unfold Preferred at *
  omega

theorem selectStep_of_unset (bestResult result : CompResult)
    (h : bestResult.OriginalValue = "") : selectStep bestResult result = result := by
  simp [selectStep, h]

theorem selectStep_eq_or (bestResult result : CompResult) :
    selectStep bestResult result = bestResult ∨ selectStep bestResult result = result := by
  unfold selectStep
  split_ifs
  · exact Or.inl rfl
  · exact Or.inr rfl
  · exact Or.inl rfl

theorem selectStep_preferred (bestResult result : CompResult)
    (h : bestResult.OriginalValue ≠ "") :
    Preferred (selectStep bestResult result) bestResult ∧
      Preferred (selectStep bestResult result) result := by
  unfold selectStep
  split_ifs with h1 h2
  · refine ⟨preferred_refl _, ?_⟩
    obtain ⟨_, hd, hl⟩ := h2
    exact Or.inr ⟨hd.symm, Nat.le_of_lt hl⟩
  · refine ⟨?_, preferred_refl _⟩
    have hle : result.Distance ≤ bestResult.Distance := h1.resolve_left h
    have hlen : result.Distance = bestResult.Distance →
        len result.OriginalValue ≤ len bestResult.OriginalValue := by
      intro hd
      by_contra hgt
      exact h2 ⟨h, hd, Nat.lt_of_not_le hgt⟩
    unfold Preferred
    by_cases hd : result.Distance = bestResult.Distance
    · exact Or.inr ⟨hd, hlen hd⟩
    · exact Or.inl (lt_of_le_of_ne hle hd)
  · refine ⟨preferred_refl _, ?_⟩
    have hlt : bestResult.Distance < result.Distance := by
      by_contra hge
      exact h1 (Or.inr (not_lt.mp hge))
    exact Or.inl hlt

/-- Once `bestResult` holds a result with a non-empty title, the loop ends on
one of the results it has seen, preferred to all of them. -/
theorem foldl_selectStep_spec :
    ∀ (rs : List CompResult) (best : CompResult), best.OriginalValue ≠ "" →
      (∀ r ∈ rs, r.OriginalValue ≠ "") →
      (rs.foldl selectStep best = best ∨ rs.foldl selectStep best ∈ rs) ∧
        Preferred (rs.foldl selectStep best) best ∧
        ∀ r ∈ rs, Preferred (rs.foldl selectStep best) r := by
  intro rs
  induction rs with
  | nil =>
    intro best _ _
    exact ⟨Or.inl rfl, preferred_refl _, fun r hr => absurd hr (List.not_mem_nil r)⟩
  | cons x xs ih =>
    intro best hb hov
    have hx : x.OriginalValue ≠ "" := hov x (List.mem_cons_self _ _)
    have hstep : (selectStep best x).OriginalValue ≠ "" := by
      rcases selectStep_eq_or best x with h | h <;> rw [h] <;> assumption
    obtain ⟨hmem, hpb, hall⟩ :=
      ih (selectStep best x) hstep (fun r hr => hov r (List.mem_cons_of_mem _ hr))
    obtain ⟨hsb, hsx⟩ := selectStep_preferred best x hb
    rw [List.foldl_cons]
    refine ⟨?_, preferred_trans hpb hsb, ?_⟩
    · rcases hmem with h | h
      · rcases selectStep_eq_or best x with h2 | h2
        · exact Or.inl (h.trans h2)
        · exact Or.inr (by rw [h, h2]; exact List.mem_cons_self _ _)
      · exact Or.inr (List.mem_cons_of_mem _ h)
    · intro r hr
      rcases List.mem_cons.mp hr with rfl | hr
      · exact preferred_trans hpb hsx
      · exact hall r hr

/-- C11 fails on the code: of two results at the same minimal distance 1, in
either order, the loop selects the one with the shorter title, `"ab"`, not
`"abcd"`; it compares the scraped titles (`OriginalValue`), so a result whose
matched title is as long but whose scraped title is longer loses as well; and
a result with an empty scraped title is taken for the unset `bestResult`, so
a result at distance 5 replaces it although its distance is 0. -/
theorem C11_longer_title_not_selected :
    bestMatch [⟨"abcd", "abcd", 1⟩, ⟨"ab", "ab", 1⟩] = ⟨"ab", "ab", 1⟩ ∧
      bestMatch [⟨"ab", "ab", 1⟩, ⟨"abcd", "abcd", 1⟩] = ⟨"ab", "ab", 1⟩ ∧
      len "ab" < len "abcd" ∧
      bestMatch [⟨"ab (xyzw)", "xyzw", 1⟩, ⟨"abcd", "abcd", 1⟩] = ⟨"abcd", "abcd", 1⟩ ∧
      bestMatch [⟨"", "", 0⟩, ⟨"abc", "abc", 5⟩] = ⟨"abc", "abc", 5⟩ := by
  decide

/-- C11, amended: for every non-empty list of comparison results whose scraped
titles (`OriginalValue`) are all non-empty, the result selected by the loop is
one of the list, achieves the minimum distance over the list, and among the
results at that distance has a scraped title with the fewest bytes: at equal
distance the shorter title wins. -/
theorem C11_best_match_selection (rs : List CompResult) (hne : rs ≠ [])
    (hov : ∀ r ∈ rs, r.OriginalValue ≠ "") :
    bestMatch rs ∈ rs ∧
      (∀ r ∈ rs, (bestMatch rs).Distance ≤ r.Distance) ∧
      (∀ r ∈ rs, r.Distance = (bestMatch rs).Distance →
        len (bestMatch rs).OriginalValue ≤ len r.OriginalValue) := by
  cases rs with
  | nil => exact absurd rfl hne
  | cons x xs =>
    have hx : x.OriginalValue ≠ "" := hov x (List.mem_cons_self _ _)
    have hfold : bestMatch (x :: xs) = xs.foldl selectStep x := by
      unfold bestMatch
      rw [List.foldl_cons, selectStep_of_unset _ x rfl]
    obtain ⟨hmem, hpx, hall⟩ :=
      foldl_selectStep_spec xs x hx (fun r hr => hov r (List.mem_cons_of_mem _ hr))
    rw [hfold]
    have hpref : ∀ r ∈ x :: xs, Preferred (xs.foldl selectStep x) r := by
      intro r hr
      rcases List.mem_cons.mp hr with rfl | hr
      · exact hpx
      · exact hall r hr
    refine ⟨?_, ?_, ?_⟩
    · rcases hmem with h | h
      · rw [h]
        exact List.mem_cons_self _ _
      · exact List.mem_cons_of_mem _ h
    · intro r hr
      have := hpref r hr
      unfold Preferred at this
      omega
    · intro r hr hd
      have := hpref r hr
      unfold Preferred at this
      omega

/-- Three results, two of them at the minimal distance 1: the selected one is
in the list, is at most as far as `"abcd"` and its title is at most as long. -/
theorem C11_best_match_selection_witness :
    bestMatch [⟨"abcd", "abcd", 1⟩, ⟨"xyz", "xyz", 3⟩, ⟨"ab", "ab", 1⟩] ∈
        [(⟨"abcd", "abcd", 1⟩ : CompResult), ⟨"xyz", "xyz", 3⟩, ⟨"ab", "ab", 1⟩] ∧
      (bestMatch [⟨"abcd", "abcd", 1⟩, ⟨"xyz", "xyz", 3⟩, ⟨"ab", "ab", 1⟩]).Distance ≤
        (⟨"abcd", "abcd", 1⟩ : CompResult).Distance ∧
      len (bestMatch [⟨"abcd", "abcd", 1⟩, ⟨"xyz", "xyz", 3⟩,
          ⟨"ab", "ab", 1⟩]).OriginalValue ≤
        len (⟨"abcd", "abcd", 1⟩ : CompResult).OriginalValue :=
  ⟨(C11_best_match_selection [⟨"abcd", "abcd", 1⟩, ⟨"xyz", "xyz", 3⟩, ⟨"ab", "ab", 1⟩]
      (by decide) (by decide)).1,
    (C11_best_match_selection [⟨"abcd", "abcd", 1⟩, ⟨"xyz", "xyz", 3⟩, ⟨"ab", "ab", 1⟩]
      (by decide) (by decide)).2.1 ⟨"abcd", "abcd", 1⟩ (by decide),
    (C11_best_match_selection [⟨"abcd", "abcd", 1⟩, ⟨"xyz", "xyz", 3⟩, ⟨"ab", "ab", 1⟩]
      (by decide) (by decide)).2.2 ⟨"abcd", "abcd", 1⟩ (by decide) (by decide)⟩

end AnimeFillerList
